import Mathlib

/-!
A verification development for the LLVMCalc calculator
(`src/calculator.cpp`): a shallow embedding of its lexer, precedence-climbing
binary-operator handling, AST, code generator and driver loop, together with
theorems about the claims of the specification.

Conventions of the embedding:
* C `double` payloads are modelled as `ℚ` (no rounding is exercised by any
  statement: the only numerals involved are small integers and short decimal
  fractions, which `strtod` maps exactly).
* The process-wide mutable state of the C program (the lexer cursor
  `LastChar`, the token buffer `CurTok`, the module and the instruction
  builder) is threaded explicitly: the lexer is a function on a `LexState`,
  the token buffer is the head of a `List Tok`, code generation is a function
  from (and to) an explicit builder / module value.
* General recursion (the parser's mutual recursion and the driver's
  `while (true)` loop) is embedded with an explicit fuel parameter; the
  top-level entry points supply fuel that is ample for the stream length.
-/

namespace LLVMCalc

/-! ## C character classification (ASCII, as in `<cctype>` under the C locale) -/

def c_isspace (c : Char) : Bool :=
  c = ' ' || c = '\t' || c = '\n' || c = '\x0b' || c = '\x0c' || c = '\x0d'

def c_isdigit (c : Char) : Bool :=
  '0' ≤ c && c ≤ '9'

def c_isalpha (c : Char) : Bool :=
  ('a' ≤ c && c ≤ 'z') || ('A' ≤ c && c ≤ 'Z')

def c_isalnum (c : Char) : Bool :=
  c_isalpha c || c_isdigit c

/-- `isalnum` applied to the result of `getchar`, which may be end-of-file
(`none`); every `<cctype>` class is false at `EOF`. -/
def c_isalnumO : Option Char → Bool
  | some c => c_isalnum c
  | none => false

/-! ## Tokens

`enum Token`: the lexer returns `tok_eof = -1`, `tok_error = -2`,
`tok_number = -4` (with its payload in `NumVal`), or the raw character
otherwise. -/

inductive Tok
  /-- `tok_eof` -/
  | eof
  /-- `tok_error` -/
  | err
  /-- `tok_number`, carrying the `NumVal` payload -/
  | num (v : ℚ)
  /-- any other character, returned as itself -/
  | ch (c : Char)
deriving DecidableEq

/-! ## The lexer (`gettok`) -/

/-- The lexer's state: the process-wide `LastChar` one-character buffer
(`none` models `EOF`) and the remaining standard-input characters. -/
structure LexState where
  lastChar : Option Char
  input : List Char
deriving DecidableEq

/-- `getchar()`: pop the next input character, `none` at end of input. -/
def getchar : List Char → Option Char × List Char
  | [] => (none, [])
  | c :: rest => (some c, rest)

/-- The `while (isspace(LastChar)) LastChar = getchar();` loop at the top of
`gettok`. -/
def skipSpaces (lc : Option Char) (inp : List Char) : Option Char × List Char :=
  match lc, inp with
  | some c, [] => if c_isspace c then (none, []) else (some c, [])
  | some c, d :: rest => if c_isspace c then skipSpaces (some d) rest else (some c, d :: rest)
  | none, inp => (none, inp)

/-- The number-scanning `do { NumStr += LastChar; LastChar = getchar(); }
while (isdigit(LastChar) || LastChar == '.');` loop: returns the accumulated
`NumStr`, the new `LastChar` and the remaining input. -/
def numRun (c : Char) (inp : List Char) (acc : String) : String × Option Char × List Char :=
  let acc2 := acc.push c
  match inp with
  | [] => (acc2, none, [])
  | d :: rest =>
    if c_isdigit d || d = '.' then numRun d rest acc2 else (acc2, some d, rest)

/-- Digits-to-natural accumulator used by the `strtod` model. -/
def natOfDigits (ds : List Char) : ℕ :=
  ds.foldl (fun a c => 10 * a + (c.toNat - 48)) 0

/-- Modelled from the spec: the C library's `strtod` is not part of this
repository; the spec says the accumulated `[0-9.]+` string is "parsed into a
64-bit float using standard lenient numeric parsing".  On such strings
`strtod` reads an integer part, then at most one fraction part, and stops at
the first character that can no longer extend the number (a second dot ends
the parse).  The value is modelled in `ℚ`. -/
def strtod (s : String) : ℚ :=
  let l := s.toList
  let ip := l.takeWhile c_isdigit
  let r := l.dropWhile c_isdigit
  match r with
  | '.' :: r2 =>
    let fp := r2.takeWhile c_isdigit
    (natOfDigits ip : ℚ) + (natOfDigits fp : ℚ) / 10 ^ fp.length
  | _ => (natOfDigits ip : ℚ)

/-- The part of `gettok` after the identifier branch: the number branch, the
end-of-file check (which does not consume the sentinel), and the final
"return the character's ASCII value" branch.  The identifier branch can fall
through to this code when the character after a letter is not alphanumeric. -/
def gettokTail (lc : Option Char) (inp : List Char) : Tok × LexState :=
  match lc with
  | some c =>
    if c_isdigit c || c = '.' then
      let r := numRun c inp ""
      (.num (strtod r.1), ⟨r.2.1, r.2.2⟩)
    else
      let g := getchar inp
      (.ch c, ⟨g.1, g.2⟩)
  | none => (.eof, ⟨none, inp⟩)

/-- `gettok()`: skip whitespace; on a letter print a diagnostic and run
`while (isalnum((LastChar = getchar()))) return tok_error;` — note that this
returns `tok_error` only when the character read after the letter is
alphanumeric, and otherwise falls through to the remaining branches; then the
number / end-of-file / raw-character branches (`gettokTail`). -/
def gettok (st : LexState) : Tok × LexState :=
  let sk := skipSpaces st.lastChar st.input
  match sk.1 with
  | some c =>
    if c_isalpha c then
      let g := getchar sk.2
      if c_isalnumO g.1 then (.err, ⟨g.1, g.2⟩)
      else gettokTail g.1 g.2
    else gettokTail (some c) sk.2
  | none => gettokTail none sk.2

/-- Run the lexer to the end of input, collecting the non-`eof` tokens (the
driver stops at the first `tok_eof`, and `gettok` keeps returning `tok_eof`
from then on).  `fuel` bounds the number of steps. -/
def tokenize : Nat → LexState → List Tok
  | 0, _ => []
  | fuel+1, st =>
    match gettok st with
    | (.eof, _) => []
    | (t, st2) => t :: tokenize fuel st2

/-- The token stream of a whole standard-input text.  The initial `LastChar`
is `' '` (`static int LastChar = ' ';`); each `gettok` call consumes at least
one character of the measure `input.length + 1`, so the supplied fuel is
ample. -/
def tokensOfString (s : String) : List Tok :=
  tokenize (s.length + 2) ⟨some ' ', s.toList⟩

/-! ## The AST -/

/-- `ExprAST` and its two concrete node classes: `NumberExprAST` (field
`Val`) and `BinaryExprAST` (fields `Op`, `LHS`, `RHS`). -/
inductive ExprAST
  | NumberExpr (Val : ℚ)
  | BinaryExpr (Op : Char) (LHS RHS : ExprAST)
deriving DecidableEq

/-- `PrototypeAST`: a function name and its argument names. -/
structure PrototypeAST where
  Name : String
  Args : List String
deriving DecidableEq

/-- `FunctionAST`: a prototype plus the body expression. -/
structure FunctionAST where
  Proto : PrototypeAST
  Body : ExprAST
deriving DecidableEq

/-! ## The parser -/

/-- `CurTok`: the parser examines the head of the remaining token stream;
an exhausted stream behaves as the stable `tok_eof`. -/
def curTok : List Tok → Tok
  | [] => .eof
  | t :: _ => t

/-- `getNextToken()`: advance the one-token buffer. -/
def adv : List Tok → List Tok
  | [] => []
  | _ :: r => r

/-- `BinopPrecedence` as installed by `main`:
`'<' '>' '=' ↦ 10`, `'+' '-' ↦ 20`, `'*' '/' ↦ 40`; `std::map::operator[]`
yields the default `0` for every other key. -/
def BinopPrecedence (c : Char) : Int :=
  if c = '<' then 10
  else if c = '>' then 10
  else if c = '=' then 10
  else if c = '+' then 20
  else if c = '-' then 20
  else if c = '*' then 40
  else if c = '/' then 40
  else 0

/-- `GetTokPrecedence()`: `-1` unless `CurTok` is an ASCII character with a
positive entry in `BinopPrecedence`. -/
def GetTokPrecedence (t : Tok) : Int :=
  match t with
  | .ch c =>
    if c.toNat ≤ 127 then
      if BinopPrecedence c ≤ 0 then -1 else BinopPrecedence c
    else -1
  | _ => -1

mutual

/-- `ParsePrimary()`: a number (`ParseNumberExpr`, which builds the node and
advances past the number), a parenthesised expression, or the
"unexpected token when expecting an expression" error.  Errors do not
consume the offending token. -/
def ParsePrimary : Nat → List Tok → Except String ExprAST × List Tok
  | 0, s => (.error "fuel exhausted", s)
  | fuel+1, s =>
    match curTok s with
    | .num v => (.ok (.NumberExpr v), adv s)
    | .ch c =>
      if c = '(' then ParseParenExpr fuel s
      else (.error "unexpected token when expecting an expression", s)
    | _ => (.error "unexpected token when expecting an expression", s)

/-- `ParseParenExpr()`: consume `'('`, parse an expression, and require a
closing `')'` (consumed), else the "expected ')'" error. -/
def ParseParenExpr : Nat → List Tok → Except String ExprAST × List Tok
  | 0, s => (.error "fuel exhausted", s)
  | fuel+1, s =>
    match ParseExpression fuel (adv s) with
    | (.ok V, s1) =>
      if curTok s1 = .ch ')' then (.ok V, adv s1)
      else (.error "expected ')'", s1)
    | (.error e, s1) => (.error e, s1)

/-- `ParseExpression()`: a primary followed by `ParseBinOpRHS(0, ...)`. -/
def ParseExpression : Nat → List Tok → Except String ExprAST × List Tok
  | 0, s => (.error "fuel exhausted", s)
  | fuel+1, s =>
    match ParsePrimary fuel s with
    | (.ok LHS, s1) => ParseBinOpRHS fuel 0 LHS s1
    | (.error e, s1) => (.error e, s1)

/-- `ParseBinOpRHS(ExprPrec, LHS)` — the precedence-climbing loop: while the
current operator binds at least as tightly as `ExprPrec`, consume it, parse
the following primary, absorb into it any strictly-tighter-binding run, and
fold the result into `LHS` left-to-right.  The final wildcard arm is
unreachable in the program: `ParseBinOpRHS` is only ever entered with
`ExprPrec ≥ 0` (`0` from `ParseExpression`, `TokPrec + 1` with
`TokPrec ≥ 0` from the recursive call), and every non-operator token has
precedence `-1 < ExprPrec` and is returned by the first branch. -/
def ParseBinOpRHS : Nat → Int → ExprAST → List Tok → Except String ExprAST × List Tok
  | 0, _, _, s => (.error "fuel exhausted", s)
  | fuel+1, ExprPrec, LHS, s =>
    if GetTokPrecedence (curTok s) < ExprPrec then (.ok LHS, s)
    else
      match curTok s with
      | .ch BinOp =>
        match ParsePrimary fuel (adv s) with
        | (.error e, s1) => (.error e, s1)
        | (.ok RHS, s1) =>
          if GetTokPrecedence (curTok s) < GetTokPrecedence (curTok s1) then
            match ParseBinOpRHS fuel (GetTokPrecedence (curTok s) + 1) RHS s1 with
            | (.error e, s2) => (.error e, s2)
            | (.ok RHS2, s2) => ParseBinOpRHS fuel ExprPrec (.BinaryExpr BinOp LHS RHS2) s2
          else ParseBinOpRHS fuel ExprPrec (.BinaryExpr BinOp LHS RHS) s1
      | _ => (.error "unreachable", s)

end

/-- Fuel that is ample for parsing a stream: each unit of nesting costs at
most three calls per token. -/
def parseFuel (s : List Tok) : Nat := 3 * s.length + 3

/-- `ParseExpression` as invoked on a token stream. -/
def parseExpressionTop (s : List Tok) : Except String ExprAST × List Tok :=
  ParseExpression (parseFuel s) s

/-- `ParseTopLevelExpr()`: wrap a successfully parsed expression in an
anonymous `FunctionAST` with the fixed prototype `__anon_expr()`. -/
def ParseTopLevelExpr (s : List Tok) : Except String FunctionAST × List Tok :=
  match parseExpressionTop s with
  | (.ok E, s1) => (.ok ⟨⟨"__anon_expr", []⟩, E⟩, s1)
  | (.error e, s1) => (.error e, s1)

/-! ## Code generation

The LLVM IR-builder capability is modelled by a value language and an
instruction list: `ConstantFP::get` produces a constant operand without
emitting anything; each `Builder->Create...` call appends one instruction to
the current basic block and returns a reference to its result. -/

/-- An LLVM `Value *`: a floating constant or the result of the `idx`-th
instruction of the current entry block. -/
inductive IRValue
  | constFP (v : ℚ)
  | instr (idx : Nat)
deriving DecidableEq

/-- The instructions this code generator can emit (`CreateFAdd`,
`CreateFSub`, `CreateFMul`, `CreateFDiv`, `CreateFCmpULT`, `CreateFCmpUGT`,
`CreateFCmpUEQ`, `CreateUIToFP` to the double type). -/
inductive Instr
  | fadd (l r : IRValue)
  | fsub (l r : IRValue)
  | fmul (l r : IRValue)
  | fdiv (l r : IRValue)
  /-- unordered floating less-than comparison -/
  | fcmpULT (l r : IRValue)
  /-- unordered floating greater-than comparison -/
  | fcmpUGT (l r : IRValue)
  /-- unordered floating equality comparison -/
  | fcmpUEQ (l r : IRValue)
  /-- unsigned-integer-to-floating conversion to the double type -/
  | uitofp (v : IRValue)
deriving DecidableEq

/-- The IR type of each instruction's result: the comparisons produce the
1-bit boolean `i1`; everything else produces `double`. -/
inductive IRType
  | i1
  | double
deriving DecidableEq

def instrType : Instr → IRType
  | .fcmpULT _ _ => .i1
  | .fcmpUGT _ _ => .i1
  | .fcmpUEQ _ _ => .i1
  | _ => .double

/-- The instruction builder positioned in one entry basic block: the
instructions emitted so far, in order. -/
structure Builder where
  instrs : List Instr
deriving DecidableEq

/-- Append one instruction and return the reference to its result. -/
def emit (b : Builder) (i : Instr) : IRValue × Builder :=
  (.instr b.instrs.length, ⟨b.instrs ++ [i]⟩)

/-- `NumberExprAST::codegen` / `BinaryExprAST::codegen`.  A binary node
generates its left then its right operand (both are generated even if the
left one failed; the null check comes after), then dispatches on `Op` in the
order of the C++ `switch`; an operator with no case is the
"invalid binary operator" failure (`nullptr`), which leaves the builder as
the operand generation left it. -/
def ExprAST.codegen : ExprAST → Builder → Option IRValue × Builder
  | .NumberExpr v, b => (some (.constFP v), b)
  | .BinaryExpr Op LHS RHS, b =>
    let Lr := LHS.codegen b
    let Rr := RHS.codegen Lr.2
    match Lr.1, Rr.1 with
    | some L, some R =>
      if Op = '+' then
        let e := emit Rr.2 (.fadd L R)
        (some e.1, e.2)
      else if Op = '-' then
        let e := emit Rr.2 (.fsub L R)
        (some e.1, e.2)
      else if Op = '*' then
        let e := emit Rr.2 (.fmul L R)
        (some e.1, e.2)
      else if Op = '/' then
        let e := emit Rr.2 (.fdiv L R)
        (some e.1, e.2)
      else if Op = '<' then
        let c1 := emit Rr.2 (.fcmpULT L R)
        let c2 := emit c1.2 (.uitofp c1.1)
        (some c2.1, c2.2)
      else if Op = '>' then
        let c1 := emit Rr.2 (.fcmpUGT L R)
        let c2 := emit c1.2 (.uitofp c1.1)
        (some c2.1, c2.2)
      else if Op = '=' then
        let c1 := emit Rr.2 (.fcmpUEQ L R)
        let c2 := emit c1.2 (.uitofp c1.1)
        (some c2.1, c2.2)
      else (none, Rr.2)
    | _, _ => (none, Rr.2)

/-! ## Functions and the module -/

/-- An IR `Function` in the module: its name, argument names, and — once the
body has been generated — its entry-block instructions and return value.
A function fresh from `PrototypeAST::codegen` has `body = none` (a
declaration). -/
structure Fn where
  name : String
  args : List String
  body : Option (List Instr × IRValue)
deriving DecidableEq

/-- `TheModule`: the list of functions it owns, in creation order. -/
abbrev IRModule := List Fn

/-- `Module::getFunction`: the function with the given name, if any. -/
def getFunction (m : IRModule) (nm : String) : Option Fn :=
  m.find? (fun f => f.name = nm)

/-- `Function::eraseFromParent` on the (first) function with this name. -/
def eraseFirstNamed (m : IRModule) (nm : String) : IRModule :=
  match m with
  | [] => []
  | f :: rest => if f.name = nm then rest else f :: eraseFirstNamed rest nm

/-- Update the (first) function with this name in place. -/
def replaceFirstNamed (m : IRModule) (nm : String) (g : Fn) : IRModule :=
  match m with
  | [] => []
  | f :: rest => if f.name = nm then g :: rest else f :: replaceFirstNamed rest nm g

/-- `PrototypeAST::codegen`: create the externally-linkable declaration
(N doubles to double; here `Args` is always empty) with named parameters. -/
def PrototypeAST.codegen (p : PrototypeAST) : Fn :=
  ⟨p.Name, p.Args, none⟩

/-- `FunctionAST::codegen`: reuse an existing same-named function, else
create it from the prototype (appending it to the module); open a fresh
entry block (the symbol table `NamedValues` is cleared and repopulated from
the arguments, but no expression of this grammar reads it); generate the
body.  On success, append the return, run `verifyFunction` (whose result the
program discards) and store the completed function; on failure, erase the
function from the module entirely (`eraseFromParent`) and return `nullptr`. -/
def FunctionAST.codegen (f : FunctionAST) (m : IRModule) : Option Fn × IRModule :=
  let dec :=
    match getFunction m f.Proto.Name with
    | some fn => (fn, m)
    | none =>
      let fn := f.Proto.codegen
      (fn, m ++ [fn])
  let gen := f.Body.codegen ⟨[]⟩
  match gen.1 with
  | some RetVal =>
    let done : Fn := { dec.1 with body := some (gen.2.instrs, RetVal) }
    (some done, replaceFirstNamed dec.2 dec.1.name done)
  | none => (none, eraseFirstNamed dec.2 dec.1.name)

/-! ## The driver loop -/

/-- `HandleTopLevelExpression()`: parse one top-level expression; on parse
success generate its code; on codegen success print the function and erase
it from the module; on codegen failure skip one token.  Note that the
error-recovery `getNextToken()` of the C++ is attached to the inner
(codegen) branch only: a parse failure neither consumes a token nor
recovers. -/
def HandleTopLevelExpression (s : List Tok) (m : IRModule) : List Tok × IRModule :=
  match ParseTopLevelExpr s with
  | (.ok FnAST, s1) =>
    match FnAST.codegen m with
    | (some FnIR, m1) => (s1, eraseFirstNamed m1 FnIR.name)
    | (none, m1) => (adv s1, m1)
  | (.error _, s1) => (s1, m)

/-- `MainLoop()`: on `tok_eof` stop; on `tok_error` or `';'` skip the token;
otherwise handle one top-level expression.  The C++ loop is `while (true)`;
the fuel bounds the number of iterations, and `none` means the loop has not
returned within that many iterations. -/
def MainLoop : Nat → List Tok → IRModule → Option (List Tok × IRModule)
  | 0, _, _ => none
  | fuel+1, s, m =>
    match curTok s with
    | .eof => some (s, m)
    | .err => MainLoop fuel (adv s) m
    | .ch c =>
      if c = ';' then MainLoop fuel (adv s) m
      else
        let r := HandleTopLevelExpression s m
        MainLoop fuel r.1 r.2
    | .num _ =>
      let r := HandleTopLevelExpression s m
      MainLoop fuel r.1 r.2

/-- `main()`: install the precedence table (already reflected in
`BinopPrecedence`), read the first token, create the empty module, run
`MainLoop`, print the remaining module and return `0`.  The returned pair is
(exit status, module printed at exit); `none` means `MainLoop` did not
return within `fuel` iterations. -/
def runMain (fuel : Nat) (input : String) : Option (Int × IRModule) :=
  match MainLoop fuel (tokensOfString input) [] with
  | some r => some (0, r.2)
  | none => none

/-! ## Derived notions used by the statements -/

/-- The comparison instruction that `BinaryExprAST::codegen` selects for a
comparison operator: `'<' ↦ FCmpULT`, `'>' ↦ FCmpUGT`, `'=' ↦ FCmpUEQ`. -/
def cmpFor (op : Char) (L R : IRValue) : Instr :=
  if op = '<' then .fcmpULT L R else if op = '>' then .fcmpUGT L R else .fcmpUEQ L R

/-- An expression all of whose binary operators carry a token of positive
precedence — the invariant the parser maintains for every node it builds. -/
def goodExpr : ExprAST → Prop
  | .NumberExpr _ => True
  | .BinaryExpr Op LHS RHS => 0 < GetTokPrecedence (.ch Op) ∧ goodExpr LHS ∧ goodExpr RHS

/-! ## Helper lemmas -/

/-- `GetTokPrecedence` never returns values in `[0, 0]` or below `-1`: it is
either the sentinel `-1` or positive. -/
lemma getTokPrecedence_cases (t : Tok) : GetTokPrecedence t = -1 ∨ 0 < GetTokPrecedence t := by
  cases t with
  | ch c =>
    by_cases hA : c.toNat ≤ 127
    · by_cases hB : BinopPrecedence c ≤ 0
      · left; simp [GetTokPrecedence, hA, hB]
      · right; simp [GetTokPrecedence, hA, hB]; omega
    · left; simp [GetTokPrecedence, hA]
  | eof => left; rfl
  | err => left; rfl
  | num v => left; rfl

/-- A positive token precedence comes from a positive table entry. -/
lemma binop_pos_of_getTok (c : Char) (h : 0 < GetTokPrecedence (Tok.ch c)) :
    0 < BinopPrecedence c := by
  by_cases hA : c.toNat ≤ 127
  · by_cases hB : BinopPrecedence c ≤ 0
    · simp [GetTokPrecedence, hA, hB] at h
    · omega
  · simp [GetTokPrecedence, hA] at h

/-- The only keys with positive entries in the table `main` installs are the
seven operators. -/
lemma binopPrecedence_pos_cases (c : Char) (h : 0 < BinopPrecedence c) :
    c = '<' ∨ c = '>' ∨ c = '=' ∨ c = '+' ∨ c = '-' ∨ c = '*' ∨ c = '/' := by
  by_contra hc
  push_neg at hc
  obtain ⟨n1, n2, n3, n4, n5, n6, n7⟩ := hc
  simp [BinopPrecedence, n1, n2, n3, n4, n5, n6, n7] at h

/-- Every expression any of the four parsing functions returns satisfies
`goodExpr`: `ParseBinOpRHS` only wraps an operator into a `BinaryExpr` after
checking `ExprPrec ≤ GetTokPrecedence`, and it is only ever entered with
`ExprPrec ≥ 0`. -/
lemma parse_good (fuel : Nat) :
    (∀ s e t, ParsePrimary fuel s = (.ok e, t) → goodExpr e) ∧
    (∀ s e t, ParseParenExpr fuel s = (.ok e, t) → goodExpr e) ∧
    (∀ s e t, ParseExpression fuel s = (.ok e, t) → goodExpr e) ∧
    (∀ prec LHS s e t, 0 ≤ prec → goodExpr LHS →
       ParseBinOpRHS fuel prec LHS s = (.ok e, t) → goodExpr e) := by
  induction fuel with
  | zero =>
    refine ⟨?_, ?_, ?_, ?_⟩ <;> intros <;>
      simp_all [ParsePrimary, ParseParenExpr, ParseExpression, ParseBinOpRHS]
  | succ fuel ih =>
    obtain ⟨ih1, ih2, ih3, ih4⟩ := ih
    refine ⟨?_, ?_, ?_, ?_⟩
    · intro s e t h
      simp only [ParsePrimary] at h
      rcases hc : curTok s with _ | _ | v | c <;> rw [hc] at h
      · simp at h
      · simp at h
      · simp at h
        obtain ⟨h1, h2⟩ := h
        exact h1 ▸ trivial
      · by_cases hp : c = '('
        · simp [hp] at h
          exact ih2 s e t h
        · simp [hp] at h
    · intro s e t h
      simp only [ParseParenExpr] at h
      rcases hpe : ParseExpression fuel (adv s) with ⟨res, s1⟩
      rw [hpe] at h
      rcases res with msg | V
      · simp at h
      · by_cases hc : curTok s1 = .ch ')'
        · simp [hc] at h
          obtain ⟨h1, h2⟩ := h
          exact h1 ▸ ih3 (adv s) V s1 hpe
        · simp [hc] at h
    · intro s e t h
      simp only [ParseExpression] at h
      rcases hpp : ParsePrimary fuel s with ⟨res, s1⟩
      rw [hpp] at h
      rcases res with msg | LHS
      · simp at h
      · simp at h
        exact ih4 0 LHS s1 e t le_rfl (ih1 s LHS s1 hpp) h
    · intro prec LHS s e t hprec hLHS h
      simp only [ParseBinOpRHS] at h
      by_cases hlt : GetTokPrecedence (curTok s) < prec
      · rw [if_pos hlt] at h
        simp at h
        obtain ⟨h1, h2⟩ := h
        exact h1 ▸ hLHS
      · rw [if_neg hlt] at h
        rcases hc : curTok s with _ | _ | v | c <;> rw [hc] at h
        · simp at h
        · simp at h
        · simp at h
        · have hpos : 0 < GetTokPrecedence (Tok.ch c) := by
            rcases getTokPrecedence_cases (Tok.ch c) with hm | hp2
            · rw [hc] at hlt; omega
            · exact hp2
          rcases hpp : ParsePrimary fuel (adv s) with ⟨res, s1⟩
          rw [hpp] at h
          rcases res with msg | RHS
          · simp at h
          · have hRHS : goodExpr RHS := ih1 (adv s) RHS s1 hpp
            simp at h
            by_cases hnx : GetTokPrecedence (Tok.ch c) < GetTokPrecedence (curTok s1)
            · rw [if_pos hnx] at h
              rcases hrec : ParseBinOpRHS fuel (GetTokPrecedence (Tok.ch c) + 1) RHS s1
                  with ⟨res2, s2⟩
              rw [hrec] at h
              rcases res2 with msg2 | RHS2
              · simp at h
              · simp at h
                have hRHS2 : goodExpr RHS2 :=
                  ih4 (GetTokPrecedence (Tok.ch c) + 1) RHS s1 RHS2 s2 (by omega) hRHS hrec
                exact ih4 prec (.BinaryExpr c LHS RHS2) s2 e t hprec ⟨hpos, hLHS, hRHS2⟩ h
            · rw [if_neg hnx] at h
              exact ih4 prec (.BinaryExpr c LHS RHS) s1 e t hprec ⟨hpos, hLHS, hRHS⟩ h

/-- Code generation cannot fail on a `goodExpr`: every operator of positive
precedence has a case in the `switch` of `BinaryExprAST::codegen`. -/
lemma good_codegen : ∀ e : ExprAST, goodExpr e → ∀ b : Builder,
    ((ExprAST.codegen e b).1).isSome := by
  intro e
  induction e with
  | NumberExpr v => intro _ b; simp [ExprAST.codegen]
  | BinaryExpr Op LHS RHS ihl ihr =>
    intro hg b
    obtain ⟨hop, hl, hr⟩ := hg
    have h1 := ihl hl b
    rcases hL : ExprAST.codegen LHS b with ⟨Lv, b1⟩
    rw [hL] at h1
    simp at h1
    rcases Lv with _ | L
    · simp at h1
    · have h2 := ihr hr b1
      rcases hR : ExprAST.codegen RHS b1 with ⟨Rv, b2⟩
      rw [hR] at h2
      simp at h2
      rcases Rv with _ | R
      · simp at h2
      · rcases binopPrecedence_pos_cases Op (binop_pos_of_getTok Op hop)
          with h | h | h | h | h | h | h <;>
          subst h <;> simp [ExprAST.codegen, hL, hR, emit]

/-- The symbolic precedence-climbing run on a five-token stream
`a o1 b o2 c` with two operators of one positive precedence `p`: the second
operator never satisfies the strictly-tighter test `p < p`, so the first
pair is folded immediately and the result is left-associated. -/
lemma parse_num_op_num_op_num (fuel : Nat) (o1 o2 : Char) (p : Int) (a b c : ℚ)
    (h1 : GetTokPrecedence (Tok.ch o1) = p) (h2 : GetTokPrecedence (Tok.ch o2) = p)
    (hp : 0 < p) :
    ParseExpression (fuel+1+1+1+1+1) [Tok.num a, Tok.ch o1, Tok.num b, Tok.ch o2, Tok.num c]
      = (.ok (.BinaryExpr o2 (.BinaryExpr o1 (.NumberExpr a) (.NumberExpr b)) (.NumberExpr c)), []) := by
  have heof : GetTokPrecedence Tok.eof = -1 := rfl
  have hn0 : ¬ (p < 0) := by omega
  have hnp : ¬ (p < p) := by omega
  have hnm : ¬ (p < -1) := by omega
  simp [ParseExpression, ParsePrimary, ParseBinOpRHS, curTok, adv, h1, h2, heof, hn0, hnp, hnm]

/-- Erasing a function that was just appended under a name absent from the
rest of the module restores the module exactly. -/
lemma eraseFirstNamed_append (m : IRModule) (fn : Fn) (h : ∀ g ∈ m, ¬ (g.name = fn.name)) :
    eraseFirstNamed (m ++ [fn]) fn.name = m := by
  induction m with
  | nil => simp [eraseFirstNamed]
  | cons g gs ih =>
    rw [List.cons_append, eraseFirstNamed]
    rw [if_neg (h g (by simp))]
    rw [ih (fun g' hg' => h g' (by simp [hg']))]

/-- `eraseFromParent` only removes: everything left was already there. -/
lemma eraseFirstNamed_subset (m : IRModule) (nm : String) :
    ∀ g ∈ eraseFirstNamed m nm, g ∈ m := by
  induction m with
  | nil => intro g hg; simp [eraseFirstNamed] at hg
  | cons f rest ih =>
    intro g hg
    rw [eraseFirstNamed] at hg
    by_cases hf : f.name = nm
    · rw [if_pos hf] at hg
      exact List.mem_cons_of_mem f hg
    · rw [if_neg hf] at hg
      rcases List.mem_cons.mp hg with h | h
      · exact h ▸ List.mem_cons_self f rest
      · exact List.mem_cons_of_mem f (ih g h)

/-- On the single-token stream `%`, `HandleTopLevelExpression` neither
consumes a token nor changes the module (the parse fails and the recovery
branch is not reached), so each `MainLoop` iteration repeats the previous
state: the loop never returns. -/
lemma mainLoop_stuck_syntax_err : ∀ fuel, MainLoop fuel [Tok.ch '%'] [] = none := by
  intro fuel
  induction fuel with
  | zero => rfl
  | succ n ih =>
    have h1 : MainLoop (n+1) [Tok.ch '%'] [] = MainLoop n [Tok.ch '%'] [] := rfl
    rw [h1]
    exact ih

/-- The token stream of `a + 1` starts with the raw token `' '`, on which
the parser fails without consuming anything, so the driver loop never
returns. -/
lemma mainLoop_stuck_letter_line : ∀ fuel,
    MainLoop fuel [Tok.ch ' ', Tok.ch '+', Tok.num 1] [] = none := by
  intro fuel
  induction fuel with
  | zero => rfl
  | succ n ih =>
    have h1 : MainLoop (n+1) [Tok.ch ' ', Tok.ch '+', Tok.num 1] []
        = MainLoop n [Tok.ch ' ', Tok.ch '+', Tok.num 1] [] := rfl
    rw [h1]
    exact ih

/-! ## The claims -/

/-- Claim C1: the claim says that on every lexical, syntactic or codegen
error the driver discards exactly one further token for resynchronisation
and continues with the next unit.  The code does not: the recovery
`getNextToken()` of `HandleTopLevelExpression` is attached to the inner
codegen-failure branch only, so on a syntax error (here the unexpected
token `%`) the driver discards zero tokens and leaves both the stream and
the module unchanged — the same unit is then re-entered forever. -/
theorem claim_C1_no_resync_on_parse_error :
    (ParseTopLevelExpr (tokensOfString "%")).1
      = .error "unexpected token when expecting an expression" ∧
    HandleTopLevelExpression (tokensOfString "%") [] = (tokensOfString "%", []) := ⟨rfl, rfl⟩

/-- Claim C2: the claim says that an input whose next non-whitespace
character is a letter makes `gettok` return the lex-error token, and that
`a + 1` yields a `LexError` and processing resumes.  The code returns
`tok_error` only when the character after the letter is alphanumeric; on
`a + 1` the letter is followed by a space, the identifier branch falls
through, and `gettok` returns the raw token `' '` — the stream contains no
error token at all, and the driver then loops forever on the unexpected
`' '` token instead of resuming. -/
theorem claim_C2_no_lex_error_token :
    (gettok ⟨some ' ', "a + 1".toList⟩).1 = Tok.ch ' ' ∧
    tokensOfString "a + 1" = [Tok.ch ' ', Tok.ch '+', Tok.num 1] ∧
    Tok.err ∉ tokensOfString "a + 1" ∧
    (∀ fuel, runMain fuel "a + 1" = none) := by
  refine ⟨rfl, rfl, by decide, ?_⟩
  intro fuel
  have ht : tokensOfString "a + 1" = [Tok.ch ' ', Tok.ch '+', Tok.num 1] := rfl
  simp only [runMain, ht, mainLoop_stuck_letter_line]

/-- Claim C3: under the default table, comparisons bind loosest, then
additive, then multiplicative operators; `2 + 25 * 2 - 8` lexes to the
expected tokens and parses to the AST `(2 + (25 * 2)) - 8`, whose code is
one multiply, then the add, then the subtract, in that order. -/
theorem claim_C3_precedence_layers :
    BinopPrecedence '<' < BinopPrecedence '+' ∧ BinopPrecedence '+' < BinopPrecedence '*' ∧
    tokensOfString "2 + 25 * 2 - 8"
      = [Tok.num 2, Tok.ch '+', Tok.num 25, Tok.ch '*', Tok.num 2, Tok.ch '-', Tok.num 8] ∧
    parseExpressionTop [Tok.num 2, Tok.ch '+', Tok.num 25, Tok.ch '*', Tok.num 2, Tok.ch '-', Tok.num 8]
      = (.ok (.BinaryExpr '-'
          (.BinaryExpr '+' (.NumberExpr 2) (.BinaryExpr '*' (.NumberExpr 25) (.NumberExpr 2)))
          (.NumberExpr 8)), []) ∧
    (ExprAST.BinaryExpr '-'
        (.BinaryExpr '+' (.NumberExpr 2) (.BinaryExpr '*' (.NumberExpr 25) (.NumberExpr 2)))
        (.NumberExpr 8)).codegen ⟨[]⟩
      = (some (.instr 2),
         ⟨[Instr.fmul (.constFP 25) (.constFP 2),
           Instr.fadd (.constFP 2) (.instr 0),
           Instr.fsub (.instr 1) (.constFP 8)]⟩) :=
  ⟨by decide, by decide, rfl, rfl, rfl⟩

/-- Claim C4: operators of equal (positive) precedence associate
left-to-right — for any two such operators `o1, o2` the stream
`a o1 b o2 c` parses to `(a o1 b) o2 c`; in particular `8 - 3 - 2` parses
to the same AST as `(8 - 3) - 2`. -/
theorem claim_C4_left_assoc (o1 o2 : Char) (p : Int) (a b c : ℚ)
    (h1 : GetTokPrecedence (Tok.ch o1) = p) (h2 : GetTokPrecedence (Tok.ch o2) = p)
    (hp : 0 < p) :
    parseExpressionTop [Tok.num a, Tok.ch o1, Tok.num b, Tok.ch o2, Tok.num c]
      = (.ok (.BinaryExpr o2 (.BinaryExpr o1 (.NumberExpr a) (.NumberExpr b)) (.NumberExpr c)), []) ∧
    (parseExpressionTop [Tok.num 8, Tok.ch '-', Tok.num 3, Tok.ch '-', Tok.num 2]).1
      = (parseExpressionTop [Tok.ch '(', Tok.num 8, Tok.ch '-', Tok.num 3, Tok.ch ')', Tok.ch '-', Tok.num 2]).1 := by
  constructor
  · have e18 : parseFuel [Tok.num a, Tok.ch o1, Tok.num b, Tok.ch o2, Tok.num c]
        = 13+1+1+1+1+1 := by simp [parseFuel]
    show ParseExpression _ _ = _
    rw [e18]
    exact parse_num_op_num_op_num 13 o1 o2 p a b c h1 h2 hp
  · rfl

/-- Claim C4, witness: the instance `o1 = o2 = '-'` at precedence 20 on
`8 - 3 - 2`. -/
theorem claim_C4_witness :
    GetTokPrecedence (Tok.ch '-') = 20 ∧ (0:Int) < 20 ∧
    parseExpressionTop [Tok.num 8, Tok.ch '-', Tok.num 3, Tok.ch '-', Tok.num 2]
      = (.ok (.BinaryExpr '-' (.BinaryExpr '-' (.NumberExpr 8) (.NumberExpr 3)) (.NumberExpr 2)), []) := by
  refine ⟨by decide, by decide, ?_⟩
  exact (claim_C4_left_assoc '-' '-' 20 8 3 2 (by decide) (by decide) (by decide)).1

/-- Claim C5: parenthesised grouping overrides precedence — the token
sequence of `(1 + 2) * 3` parses to `multiply(add(1,2), 3)` with the add as
the left child, and its code is the add followed by the multiply. -/
theorem claim_C5_paren_grouping :
    tokensOfString "(1 + 2) * 3"
      = [Tok.ch '(', Tok.num 1, Tok.ch '+', Tok.num 2, Tok.ch ')', Tok.ch '*', Tok.num 3] ∧
    parseExpressionTop [Tok.ch '(', Tok.num 1, Tok.ch '+', Tok.num 2, Tok.ch ')', Tok.ch '*', Tok.num 3]
      = (.ok (.BinaryExpr '*' (.BinaryExpr '+' (.NumberExpr 1) (.NumberExpr 2)) (.NumberExpr 3)), []) ∧
    (ExprAST.BinaryExpr '*' (.BinaryExpr '+' (.NumberExpr 1) (.NumberExpr 2)) (.NumberExpr 3)).codegen ⟨[]⟩
      = (some (.instr 1),
         ⟨[Instr.fadd (.constFP 1) (.constFP 2), Instr.fmul (.instr 0) (.constFP 3)]⟩) :=
  ⟨rfl, rfl, rfl⟩

/-- Claim C6: for a `BinaryExpr` whose operator is `<`, `>` or `=`, once
both operands have generated successfully, codegen emits the corresponding
unordered floating comparison immediately followed by an
unsigned-integer-to-float conversion of its 1-bit boolean result, and
returns the converted (double) value. -/
theorem claim_C6_cmp (op : Char) (l r : ExprAST) (b b1 b2 : Builder) (L R : IRValue)
    (hop : op = '<' ∨ op = '>' ∨ op = '=')
    (hl : l.codegen b = (some L, b1)) (hr : r.codegen b1 = (some R, b2)) :
    (ExprAST.BinaryExpr op l r).codegen b
      = (some (.instr (b2.instrs.length + 1)),
         ⟨b2.instrs ++ [cmpFor op L R, .uitofp (.instr b2.instrs.length)]⟩) ∧
    instrType (cmpFor op L R) = IRType.i1 ∧
    instrType (Instr.uitofp (.instr b2.instrs.length)) = IRType.double := by
  rcases hop with h | h | h <;> subst h <;>
    simp [ExprAST.codegen, hl, hr, emit, cmpFor, instrType]

/-- Claim C6, witness: `3 < 5` compiles to `FCmpULT` followed by the
widening conversion. -/
theorem claim_C6_witness :
    (('<' : Char) = '<' ∨ ('<' : Char) = '>' ∨ ('<' : Char) = '=') ∧
    (ExprAST.BinaryExpr '<' (.NumberExpr 3) (.NumberExpr 5)).codegen ⟨[]⟩
      = (some (.instr 1),
         ⟨[cmpFor '<' (.constFP 3) (.constFP 5), .uitofp (.instr 0)]⟩) ∧
    instrType (cmpFor '<' (.constFP 3) (.constFP 5)) = IRType.i1 ∧
    instrType (Instr.uitofp (.instr 0)) = IRType.double := by
  have h := claim_C6_cmp '<' (.NumberExpr 3) (.NumberExpr 5) ⟨[]⟩ ⟨[]⟩ ⟨[]⟩
      (.constFP 3) (.constFP 5) (Or.inl rfl) rfl rfl
  exact ⟨Or.inl rfl, h.1, h.2.1, h.2.2⟩

/-- Claim C7: `(1 + 2` followed by end-of-input is the parse error
"expected ')'"; the driver performs no code generation, the module is left
without any function (in particular no leftover partial one), and the loop
then terminates normally at end-of-input. -/
theorem claim_C7_missing_close_paren :
    tokensOfString "(1 + 2" = [Tok.ch '(', Tok.num 1, Tok.ch '+', Tok.num 2] ∧
    ParseTopLevelExpr (tokensOfString "(1 + 2") = (.error "expected ')'", []) ∧
    HandleTopLevelExpression (tokensOfString "(1 + 2") [] = ([], []) ∧
    getFunction (HandleTopLevelExpression (tokensOfString "(1 + 2") []).2 "__anon_expr" = none ∧
    MainLoop 2 (tokensOfString "(1 + 2") [] = some ([], []) := ⟨rfl, rfl, rfl, rfl, rfl⟩

/-- Claim C8: if the body of a function definition fails to generate,
`FunctionAST::codegen` reports failure and the function is erased from the
module entirely: no function under its name remains beyond those the module
already had, and when the name was fresh the module is restored exactly. -/
theorem claim_C8_codegen_atomic (pr : PrototypeAST) (body : ExprAST) (m : IRModule)
    (hfail : (body.codegen ⟨[]⟩).1 = none) :
    (FunctionAST.codegen ⟨pr, body⟩ m).1 = none ∧
    (∀ g ∈ (FunctionAST.codegen ⟨pr, body⟩ m).2, g.name = pr.Name → g ∈ m) ∧
    (getFunction m pr.Name = none → FunctionAST.codegen ⟨pr, body⟩ m = (none, m)) := by
  rcases hex : getFunction m pr.Name with _ | fn
  · have hall : ∀ g ∈ m, ¬ (g.name = pr.Name) := by
      intro g hg
      have := List.find?_eq_none.mp hex g hg
      simpa using this
    have hmain : FunctionAST.codegen ⟨pr, body⟩ m = (none, m) := by
      simp only [FunctionAST.codegen, hex]
      simp [hfail, PrototypeAST.codegen]
      exact eraseFirstNamed_append m ⟨pr.Name, pr.Args, none⟩ hall
    refine ⟨by rw [hmain], ?_, fun _ => hmain⟩
    intro g hg _
    rw [hmain] at hg
    exact hg
  · have hname : fn.name = pr.Name := by
      have := List.find?_some hex
      simpa using this
    have hmain : FunctionAST.codegen ⟨pr, body⟩ m = (none, eraseFirstNamed m fn.name) := by
      simp only [FunctionAST.codegen, hex]
      simp [hfail]
    refine ⟨by rw [hmain], ?_, ?_⟩
    · intro g hg _
      rw [hmain] at hg
      exact eraseFirstNamed_subset m fn.name g hg
    · intro hnone
      simp [hex] at hnone

/-- Claim C8, witness: a body whose operator `%` has no codegen case fails,
and compiling it as `__anon_expr` in the empty module returns failure with
the module unchanged. -/
theorem claim_C8_witness :
    ((ExprAST.BinaryExpr '%' (.NumberExpr 1) (.NumberExpr 2)).codegen ⟨[]⟩).1 = none ∧
    (FunctionAST.codegen ⟨⟨"__anon_expr", []⟩, .BinaryExpr '%' (.NumberExpr 1) (.NumberExpr 2)⟩ []).1
      = none ∧
    FunctionAST.codegen ⟨⟨"__anon_expr", []⟩, .BinaryExpr '%' (.NumberExpr 1) (.NumberExpr 2)⟩ []
      = (none, []) := by
  have h := claim_C8_codegen_atomic ⟨"__anon_expr", []⟩
      (.BinaryExpr '%' (.NumberExpr 1) (.NumberExpr 2)) [] rfl
  exact ⟨rfl, h.1, h.2.2 rfl⟩

/-- Claim C9: the claim says the driver loop terminates for every finite
input and the process exits with status 0.  Empty input does terminate with
status 0 and an empty module, but the input `%` does not terminate for any
iteration bound: the syntax error consumes no token (see claim C1), so the
loop never reaches end-of-input. -/
theorem claim_C9_divergence :
    (∀ fuel, runMain fuel "%" = none) ∧ runMain 1 "" = some (0, []) := by
  constructor
  · intro fuel
    have ht : tokensOfString "%" = [Tok.ch '%'] := rfl
    simp only [runMain, ht, mainLoop_stuck_syntax_err]
  · rfl

/-- Claim C10: the "invalid binary operator" branch is unreachable for
parser-produced ASTs — whenever `ParseExpression` succeeds on a token
stream, code generation of the resulting expression succeeds in every
builder state. -/
theorem claim_C10_codegen_total (s : List Tok) (e : ExprAST) (t : List Tok)
    (h : parseExpressionTop s = (.ok e, t)) (b : Builder) :
    ((ExprAST.codegen e b).1).isSome :=
  good_codegen e ((parse_good (parseFuel s)).2.2.1 s e t h) b

/-- Claim C10, witness: the parsed `3 < 5` generates successfully. -/
theorem claim_C10_witness :
    parseExpressionTop [Tok.num 3, Tok.ch '<', Tok.num 5]
      = (.ok (.BinaryExpr '<' (.NumberExpr 3) (.NumberExpr 5)), []) ∧
    (((ExprAST.BinaryExpr '<' (.NumberExpr 3) (.NumberExpr 5)).codegen ⟨[]⟩).1).isSome :=
  ⟨rfl, claim_C10_codegen_total [Tok.num 3, Tok.ch '<', Tok.num 5] _ [] rfl ⟨[]⟩⟩

end LLVMCalc
